import Mathlib

/-
Verification development for the flavor admission plugin
(plugin/pkg/admission/flavor/admission.go).

The plugin's two functions, `Admit` and `matchFlavor`, are embedded as pure
Lean functions.  Go maps (`api.ResourceList`, the flavor catalog) are
represented as association lists; the list order of the catalog stands for the
enumeration order of one `range` iteration over the Go map.  In-place mutation
of a resource list is represented by returning the final value of the list
alongside the boolean result.
-/

set_option autoImplicit false

namespace Flavor

/-- Resource dimension names (`api.ResourceName` in the source). -/
abbrev ResourceName := String

/-- Modelled from the spec: the quantity type of the resource package is not
under src/; per the spec it is "a parsed numeric resource amount supporting
magnitude-equivalent comparison", so it is modelled as a parsed magnitude
(kept in milli-units) together with the raw format string it was written in. -/
structure Quantity where
  milli : Int
  format : String
deriving DecidableEq, Repr

/-- Modelled from the spec: `Quantity.Cmp` compares the parsed magnitudes and
ignores the format string ("two differently-formatted strings denoting the
same magnitude must be treated as equal"). -/
def Quantity.cmp (a b : Quantity) : Ordering :=
  if a.milli < b.milli then Ordering.lt
  else if a.milli = b.milli then Ordering.eq
  else Ordering.gt

/-- The numeric value of a decimal digit character. -/
def digitVal? (c : Char) : Option Nat :=
  if 48 ≤ c.toNat ∧ c.toNat ≤ 57 then some (c.toNat - 48) else none

/-- The value of a non-empty string of decimal digits. -/
def digitsVal? (cs : List Char) : Option Nat :=
  if cs.isEmpty then none
  else cs.foldl (fun acc c => acc.bind (fun n => (digitVal? c).map (fun d => n * 10 + d)))
    (some 0)

/-- Modelled from the spec: parsing of quantity strings ("a conventional
magnitude-suffix numeric format"), just enough of it for the catalog examples:
plain integers, the milli suffix, and the binary suffixes Mi and Gi. -/
def parseQuantity (s : String) : Option Quantity :=
  match s.data.reverse with
  | 'i' :: 'M' :: rest => (digitsVal? rest.reverse).map (fun n => ⟨(n : Int) * 1048576 * 1000, s⟩)
  | 'i' :: 'G' :: rest => (digitsVal? rest.reverse).map (fun n => ⟨(n : Int) * 1073741824 * 1000, s⟩)
  | 'm' :: rest => (digitsVal? rest.reverse).map (fun n => ⟨(n : Int), s⟩)
  | _ => (digitsVal? s.data).map (fun n => ⟨(n : Int) * 1000, s⟩)

/-- `api.ResourceList`: a map from resource name to quantity, represented as an
association list. -/
abbrev ResourceList := List (ResourceName × Quantity)

/-- Map lookup `flavor[k]` on the association-list representation. -/
def lookupR : ResourceList → ResourceName → Option Quantity
  | [], _ => none
  | p :: rest, k => if p.1 = k then some p.2 else lookupR rest k

/-- The check the request loop of `matchFlavor` (lines 140-152) performs for
one request entry `(k, v)`:
`fv, exists := flavor[k]; if !exists return false; if fv.Cmp(v) != 0 return false`. -/
def reqCheck (flavor : ResourceList) (p : ResourceName × Quantity) : Bool :=
  match lookupR flavor p.1 with
  | none => false
  | some fv => Quantity.cmp fv p.2 = Ordering.eq

/-- `matchFlavor(flavor, req)` (lines 134-158).  The first loop fails (with
`req` untouched) as soon as some request entry is missing from the flavor or
compares unequal; on success the second loop backfills every flavor dimension
absent from `req`.  The source mutates `req` in place; the embedding returns
the matched flag together with the final value of `req`. -/
def matchFlavor (flavor req : ResourceList) : Bool × ResourceList :=
  if req.all (reqCheck flavor) then
    (true, req ++ flavor.filter (fun p => (lookupR req p.1).isNone))
  else
    (false, req)

/-- `flavorType` in the source. -/
abbrev flavorType := String

/-- The `flavors` struct: the catalog.  The Go field is a map from flavor name
to resource list; the association list's order stands for the enumeration
order of one `range` iteration over the map (Go does not fix that order). -/
structure flavors where
  Flavors : List (flavorType × ResourceList)
deriving DecidableEq, Repr

/-- A container: only its resource-request list is relevant to the plugin. -/
structure Container where
  requests : ResourceList
deriving DecidableEq, Repr

/-- A pod: an ordered sequence of containers. -/
structure Pod where
  containers : List Container
deriving DecidableEq, Repr

/-- A group/kind pair, as compared by `a.GetKind().GroupKind()`. -/
structure GroupKind where
  group : String
  kind : String
deriving DecidableEq, Repr

/-- `api.Kind("Pod")`: the Pod kind in the legacy (empty) API group. -/
def podKind : GroupKind := ⟨"", "Pod"⟩

/-- The resource name of the pods collection, compared against
`a.GetResource().Resource`. -/
def podsResource : String := "pods"

/-- The attributes of one admission request, as read by `Admit`. -/
structure Attributes where
  kind : GroupKind
  subresource : String
  resource : String
  obj : Pod
deriving DecidableEq, Repr

/-- The inner loop of `Admit` (lines 121-125): scan the catalog, assigning
`found = matchFlavor(v, reqs)` for each flavor and breaking at the first
match.  `found` keeps its incoming value when the catalog is empty.  Returns
the final `found` together with the final request list. -/
def scanFlavors (catalog : List (flavorType × ResourceList)) (found : Bool) (req : ResourceList) : Bool × ResourceList :=
  match catalog with
  | [] => (found, req)
  | p :: rest =>
    let m := matchFlavor p.2 req
    if m.1 then (true, m.2) else scanFlavors rest m.1 m.2

/-- The container loop of `Admit` (lines 110-126): `break` on an empty request
list leaves `found` and the remaining containers as they are; otherwise the
container's request list is scanned (and possibly backfilled in place). -/
def admitLoop (catalog : List (flavorType × ResourceList)) (found : Bool) : List Container → Bool × List Container
  | [] => (found, [])
  | c :: rest =>
    if c.requests.isEmpty then
      (found, c :: rest)
    else
      let s := scanFlavors catalog found c.requests
      let r := admitLoop catalog s.1 rest
      (r.1, Container.mk s.2 :: r.2)

/-- The error message of line 129. -/
def admissionError : String := "Request does not match any of the supported flavors"

/-- `Admit` (lines 92-132): the applicability filter followed by the container
loop; the verdict is `nil` exactly when the `found` flag is true after the
loop.  The result pairs the returned error (if any) with the final state of
the pod object, which the source mutates in place. -/
def Admit (f : flavors) (a : Attributes) : Option String × Pod :=
  if a.kind ≠ podKind then (none, a.obj)
  else if a.subresource ≠ "" then (none, a.obj)
  else if a.resource ≠ podsResource then (none, a.obj)
  else
    let r := admitLoop f.Flavors false a.obj.containers
    if !r.1 then (some admissionError, Pod.mk r.2) else (none, Pod.mk r.2)

/-- Whether some flavor of the catalog matches the request list (the value the
inner loop of `Admit` leaves in `found` when the catalog is non-empty). -/
def containerMatches (catalog : List (flavorType × ResourceList)) (req : ResourceList) : Bool :=
  catalog.any (fun p => (matchFlavor p.2 req).1)

/-- The per-container step of `Admit` in isolation (the spec's
`admitContainer`): an empty request list never reaches the catalog scan
(lines 117-119), otherwise the scan starts with `found = false`. -/
def admitContainer (catalog : List (flavorType × ResourceList)) (req : ResourceList) : Bool × ResourceList :=
  if req.isEmpty then (false, req) else scanFlavors catalog false req

/-- Magnitude equality of optional quantities. -/
def optMilliEq : Option Quantity → Option Quantity → Bool
  | none, none => true
  | some a, some b => a.milli = b.milli
  | _, _ => false

/-- Dimension-for-dimension value equality of two resource lists: the same key
set, with magnitude-equal values. -/
def bundleValEqB (a b : ResourceList) : Bool :=
  (a.map Prod.fst ++ b.map Prod.fst).all (fun k => optMilliEq (lookupR a k) (lookupR b k))

/-- The last container the loop of `Admit` examines: the last element of the
maximal prefix of containers with non-empty request lists. -/
def lastExamined : List Container → Option Container
  | [] => none
  | c :: rest => if c.requests.isEmpty then none else some ((lastExamined rest).getD c)

/- Concrete inputs used by counterexamples and witnesses. -/

def cpuName : ResourceName := "cpu"
def memName : ResourceName := "memory"
def qCpu250 : Quantity := ⟨250, "250m"⟩
def qCpu300 : Quantity := ⟨300, "300m"⟩
def qCpu1 : Quantity := ⟨1000, "1"⟩
def qCpu1000m : Quantity := ⟨1000, "1000m"⟩
def qMem1Gi : Quantity := ⟨1073741824000, "1Gi"⟩
def qMem1Mi : Quantity := ⟨1048576000, "1Mi"⟩
def qMem2Mi : Quantity := ⟨2097152000, "2Mi"⟩

/-- A one-flavor catalog: small = \x7bcpu: 250m\x7d. -/
def catalogSmall : flavors := ⟨[("small", [(cpuName, qCpu250)])]⟩

/-- A one-flavor catalog with two dimensions: small = \x7bcpu: 250m, memory: 1Gi\x7d. -/
def catalogSM : flavors := ⟨[("small", [(cpuName, qCpu250), (memName, qMem1Gi)])]⟩

def bundleA : ResourceList := [(cpuName, qCpu1), (memName, qMem1Mi)]
def bundleB : ResourceList := [(cpuName, qCpu1), (memName, qMem2Mi)]

/-- Two flavors that agree on cpu and differ on memory, in one order... -/
def catalogAB : flavors := ⟨[("a", bundleA), ("b", bundleB)]⟩

/-- ...and the same two flavors in the other order. -/
def catalogBA : flavors := ⟨[("b", bundleB), ("a", bundleA)]⟩

/-- Attributes that pass the applicability filter for a given pod. -/
def attrsFor (p : Pod) : Attributes := ⟨podKind, "", podsResource, p⟩

/-- A pod whose first container matches `catalogSmall` and whose second does not. -/
def podMatchThenNoMatch : Pod := ⟨[⟨[(cpuName, qCpu250)]⟩, ⟨[(cpuName, qCpu300)]⟩]⟩

/-- A pod whose first container matches `catalogSmall` and whose second declares
no resource requests at all. -/
def podMatchThenEmpty : Pod := ⟨[⟨[(cpuName, qCpu250)]⟩, ⟨[]⟩]⟩

/-- A pod whose first container partially matches `catalogSM` (memory only, to
be backfilled) and whose second container matches nothing. -/
def podBackfillThenNoMatch : Pod := ⟨[⟨[(memName, qMem1Gi)]⟩, ⟨[(cpuName, qCpu300)]⟩]⟩

/-- A pod whose first container matches nothing in `catalogSmall` and whose
second container matches. -/
def podNoMatchThenMatch : Pod := ⟨[⟨[(cpuName, qCpu300)]⟩, ⟨[(cpuName, qCpu250)]⟩]⟩

/-- A pod with one container that matches `catalogSmall` exactly. -/
def podSingleMatch : Pod := ⟨[⟨[(cpuName, qCpu250)]⟩]⟩

/-! Helper lemmas about the association-list operations. -/

theorem lookupR_append (a b : ResourceList) (k : ResourceName) :
    lookupR (a ++ b) k = match lookupR a k with
      | some v => some v
      | none => lookupR b k := by
  induction a with
  | nil => simp [lookupR]
  | cons p rest ih =>
    by_cases h : p.1 = k <;> simp [lookupR, h, ih]

theorem lookupR_eq_some_mem {l : ResourceList} {k : ResourceName} {v : Quantity}
    (h : lookupR l k = some v) : (k, v) ∈ l := by
  induction l with
  | nil => simp [lookupR] at h
  | cons p rest ih =>
    by_cases hp : p.1 = k
    · simp only [lookupR, if_pos hp] at h
      cases h
      subst hp
      exact List.Mem.head _
    · simp only [lookupR, if_neg hp] at h
      exact List.mem_cons_of_mem _ (ih h)

theorem lookupR_eq_none_of_not_mem {l : ResourceList} {k : ResourceName}
    (h : k ∉ l.map Prod.fst) : lookupR l k = none := by
  induction l with
  | nil => rfl
  | cons p rest ih =>
    simp only [List.map_cons, List.mem_cons] at h
    push_neg at h
    have hne : ¬ p.1 = k := fun hp => h.1 hp.symm
    simp only [lookupR, if_neg hne]
    exact ih h.2

theorem lookupR_filter_key (l : ResourceList) (c : ResourceName → Bool) (k : ResourceName) :
    lookupR (l.filter (fun p => c p.1)) k = if c k then lookupR l k else none := by
  induction l with
  | nil => cases hc : c k <;> simp [lookupR, hc]
  | cons p rest ih =>
    by_cases hp : c p.1
    · rw [List.filter_cons_of_pos (by simpa using hp)]
      by_cases hk : p.1 = k
      · subst hk
        simp [lookupR, hp]
      · simp only [lookupR, if_neg hk]
        exact ih
    · rw [List.filter_cons_of_neg (by simpa using hp)]
      rw [ih]
      by_cases hk : p.1 = k
      · subst hk
        simp [hp]
      · simp [lookupR, hk]

theorem cmp_eq_ordering_eq_iff (a b : Quantity) :
    Quantity.cmp a b = Ordering.eq ↔ a.milli = b.milli := by
  unfold Quantity.cmp
  by_cases h1 : a.milli < b.milli
  · simp only [if_pos h1]
    constructor
    · intro hc
      exact absurd hc (by decide)
    · intro he
      exact absurd he (by omega)
  · by_cases h2 : a.milli = b.milli
    · simp [h1, h2]
    · simp [h1, h2]

theorem optMilliEq_refl (o : Option Quantity) : optMilliEq o o = true := by
  cases o <;> simp [optMilliEq]

/-! Helper lemmas about `matchFlavor`. -/

theorem matchFlavor_fst (fl req : ResourceList) :
    (matchFlavor fl req).1 = req.all (reqCheck fl) := by
  unfold matchFlavor
  split <;> simp_all

theorem matchFlavor_of_all {fl req : ResourceList} (h : req.all (reqCheck fl) = true) :
    matchFlavor fl req = (true, req ++ fl.filter (fun p => (lookupR req p.1).isNone)) := by
  unfold matchFlavor
  rw [if_pos h]

theorem matchFlavor_false_id {fl req : ResourceList} (h : (matchFlavor fl req).1 = false) :
    (matchFlavor fl req).2 = req := by
  by_cases hc : req.all (reqCheck fl) = true
  · rw [matchFlavor_fst, hc] at h
    cases h
  · unfold matchFlavor
    rw [if_neg hc]

theorem bundleValEqB_iff (a b : ResourceList) :
    bundleValEqB a b = true ↔ ∀ k, optMilliEq (lookupR a k) (lookupR b k) = true := by
  unfold bundleValEqB
  rw [List.all_eq_true]
  constructor
  · intro h k
    by_cases ha : k ∈ a.map Prod.fst
    · exact h k (List.mem_append_left _ ha)
    · by_cases hb : k ∈ b.map Prod.fst
      · exact h k (List.mem_append_right _ hb)
      · rw [lookupR_eq_none_of_not_mem ha, lookupR_eq_none_of_not_mem hb]
        rfl
  · intro h k _
    exact h k

theorem matchFlavor_true_valEq {fl req : ResourceList} (h : (matchFlavor fl req).1 = true) :
    bundleValEqB (matchFlavor fl req).2 fl = true := by
  have hall : req.all (reqCheck fl) = true := by rwa [matchFlavor_fst] at h
  rw [matchFlavor_of_all hall]
  rw [bundleValEqB_iff]
  intro k
  cases hh : lookupR req k with
  | some v =>
    have hl : lookupR (req ++ fl.filter (fun p => (lookupR req p.1).isNone)) k = some v := by
      rw [lookupR_append, hh]
    rw [hl]
    have hmem : (k, v) ∈ req := lookupR_eq_some_mem hh
    have hc := List.all_eq_true.mp hall (k, v) hmem
    unfold reqCheck at hc
    cases hfk : lookupR fl k with
    | none => simp [hfk] at hc
    | some fv =>
      rw [hfk] at hc
      simp only [decide_eq_true_eq] at hc
      have : fv.milli = v.milli := (cmp_eq_ordering_eq_iff fv v).mp hc
      simp [optMilliEq, this]
  | none =>
    rw [lookupR_append, hh]
    rw [lookupR_filter_key fl (fun k => (lookupR req k).isNone) k]
    rw [hh]
    simp only [Option.isNone_none, if_pos]
    exact optMilliEq_refl _

/-! Helper lemmas about the catalog scan and the container loop. -/

theorem scanFlavors_cons_true {p : flavorType × ResourceList} {req : ResourceList}
    (rest : List (flavorType × ResourceList)) (found : Bool)
    (hm : (matchFlavor p.2 req).1 = true) :
    scanFlavors (p :: rest) found req = (true, (matchFlavor p.2 req).2) := by
  simp [scanFlavors, hm]

theorem scanFlavors_cons_false {p : flavorType × ResourceList} {req : ResourceList}
    (rest : List (flavorType × ResourceList)) (found : Bool)
    (hm : (matchFlavor p.2 req).1 = false) :
    scanFlavors (p :: rest) found req = scanFlavors rest false req := by
  simp [scanFlavors, hm, matchFlavor_false_id hm]

theorem scanFlavors_fst {catalog : List (flavorType × ResourceList)} (h : catalog ≠ [])
    (found : Bool) (req : ResourceList) :
    (scanFlavors catalog found req).1 = containerMatches catalog req := by
  induction catalog generalizing found with
  | nil => exact absurd rfl h
  | cons p rest ih =>
    cases hm : (matchFlavor p.2 req).1 with
    | true =>
      rw [scanFlavors_cons_true rest found hm]
      simp [containerMatches, hm]
    | false =>
      rw [scanFlavors_cons_false rest found hm]
      cases rest with
      | nil => simp [scanFlavors, containerMatches, hm]
      | cons q rest2 =>
        rw [ih (by simp) false]
        simp [containerMatches, hm]

theorem scanFlavors_snd_of_all_false {catalog : List (flavorType × ResourceList)}
    {req : ResourceList} (h : ∀ p ∈ catalog, (matchFlavor p.2 req).1 = false) (found : Bool) :
    (scanFlavors catalog found req).2 = req := by
  induction catalog generalizing found with
  | nil => rfl
  | cons p rest ih =>
    have hm : (matchFlavor p.2 req).1 = false := h p (List.Mem.head _)
    rw [scanFlavors_cons_false rest found hm]
    exact ih (fun q hq => h q (List.mem_cons_of_mem _ hq)) false

theorem scanFlavors_false_of_all_false {catalog : List (flavorType × ResourceList)}
    {req : ResourceList} (h : ∀ p ∈ catalog, (matchFlavor p.2 req).1 = false) :
    scanFlavors catalog false req = (false, req) := by
  cases hc : catalog with
  | nil => rfl
  | cons p rest =>
    subst hc
    have h1 := @scanFlavors_fst (p :: rest) (by simp) false req
    have h2 := scanFlavors_snd_of_all_false h false
    have h3 : containerMatches (p :: rest) req = false := by
      rw [containerMatches, List.any_eq_false]
      intro q hq
      simp [h q hq]
    rw [h3] at h1
    exact Prod.ext h1 h2

theorem scanFlavors_snd_of_not_match {catalog : List (flavorType × ResourceList)}
    {req : ResourceList} (h : containerMatches catalog req = false) (found : Bool) :
    (scanFlavors catalog found req).2 = req := by
  rw [containerMatches, List.any_eq_false] at h
  exact scanFlavors_snd_of_all_false (fun p hp => by simpa using h p hp) found

theorem scanFlavors_first_match (pre : List (flavorType × ResourceList))
    (fl : flavorType × ResourceList) (post : List (flavorType × ResourceList))
    (found : Bool) (req : ResourceList)
    (hpre : ∀ p ∈ pre, (matchFlavor p.2 req).1 = false)
    (hfl : (matchFlavor fl.2 req).1 = true) :
    scanFlavors (pre ++ fl :: post) found req = (true, (matchFlavor fl.2 req).2) := by
  induction pre generalizing found with
  | nil =>
    rw [List.nil_append]
    exact scanFlavors_cons_true post found hfl
  | cons p rest ih =>
    have hm : (matchFlavor p.2 req).1 = false := hpre p (List.Mem.head _)
    rw [List.cons_append, scanFlavors_cons_false _ found hm]
    exact ih false (fun q hq => hpre q (List.mem_cons_of_mem _ hq))

theorem scanFlavors_of_match {catalog : List (flavorType × ResourceList)}
    {req : ResourceList} (h : containerMatches catalog req = true) (found : Bool) :
    (scanFlavors catalog found req).1 = true ∧
      ∃ q ∈ catalog, bundleValEqB (scanFlavors catalog found req).2 q.2 = true := by
  induction catalog generalizing found with
  | nil => simp [containerMatches] at h
  | cons p rest ih =>
    cases hm : (matchFlavor p.2 req).1 with
    | true =>
      rw [scanFlavors_cons_true rest found hm]
      exact ⟨rfl, p, List.Mem.head _, matchFlavor_true_valEq hm⟩
    | false =>
      have hrest : containerMatches rest req = true := by
        rw [containerMatches, List.any_eq_true] at h ⊢
        rcases h with ⟨q, hq, hq2⟩
        rcases List.mem_cons.mp hq with rfl | hq3
        · exact absurd hq2 (by simp [hm])
        · exact ⟨q, hq3, hq2⟩
      rw [scanFlavors_cons_false rest found hm]
      rcases ih hrest false with ⟨h1, q, hq, h2⟩
      exact ⟨h1, q, List.mem_cons_of_mem _ hq, h2⟩

theorem admitLoop_fst {catalog : List (flavorType × ResourceList)} (h : catalog ≠ [])
    (found : Bool) (cs : List Container) :
    (admitLoop catalog found cs).1 =
      (lastExamined cs).elim found (fun c => containerMatches catalog c.requests) := by
  induction cs generalizing found with
  | nil => rfl
  | cons c rest ih =>
    by_cases he : c.requests.isEmpty
    · simp [admitLoop, lastExamined, he]
    · simp only [admitLoop, lastExamined, if_neg he]
      rw [scanFlavors_fst h found c.requests]
      rw [ih (containerMatches catalog c.requests)]
      cases hle : lastExamined rest <;> simp

theorem admitLoop_forall2 (catalog : List (flavorType × ResourceList))
    (found : Bool) (cs : List Container) :
    List.Forall₂
      (fun o c => o.requests = c.requests ∨ containerMatches catalog c.requests = true)
      (admitLoop catalog found cs).2 cs := by
  induction cs generalizing found with
  | nil => exact List.Forall₂.nil
  | cons c rest ih =>
    by_cases he : c.requests.isEmpty
    · simp only [admitLoop, if_pos he]
      exact List.forall₂_same.mpr (fun x _ => Or.inl rfl)
    · simp only [admitLoop, if_neg he]
      refine List.Forall₂.cons ?_ (ih _)
      cases hcm : containerMatches catalog c.requests with
      | true => exact Or.inr rfl
      | false => exact Or.inl (scanFlavors_snd_of_not_match hcm found)

theorem Admit_pass (f : flavors) (a : Attributes)
    (h1 : a.kind = podKind) (h2 : a.subresource = "") (h3 : a.resource = podsResource) :
    Admit f a = (if (admitLoop f.Flavors false a.obj.containers).1 = true
        then none else some admissionError,
      Pod.mk (admitLoop f.Flavors false a.obj.containers).2) := by
  cases hr : (admitLoop f.Flavors false a.obj.containers).1 <;>
    simp [Admit, h1, h2, h3, hr]

/-! The claims. -/

/-- C1 (amended): for a request passing the applicability filter and a
non-empty catalog, `Admit` returns nil if and only if the last container the
loop examines — the last container of the maximal prefix of containers with
non-empty request lists — matched some catalog flavor.  The `found` flag is
overwritten by each examined container, so the verdict is the last examined
container's match result, not whether any container matched. -/
theorem admit_nil_iff_lastExamined_matches (f : flavors) (a : Attributes)
    (h1 : a.kind = podKind) (h2 : a.subresource = "") (h3 : a.resource = podsResource)
    (hcat : f.Flavors ≠ []) :
    (Admit f a).1 = none ↔
      ∃ c, lastExamined a.obj.containers = some c ∧
        containerMatches f.Flavors c.requests = true := by
  rw [Admit_pass f a h1 h2 h3]
  have hl := admitLoop_fst hcat false a.obj.containers
  cases hle : lastExamined a.obj.containers with
  | none =>
    rw [hle] at hl
    simp only [Option.elim] at hl
    rw [hl]
    simp
  | some c =>
    rw [hle] at hl
    simp only [Option.elim] at hl
    rw [hl]
    cases hcm : containerMatches f.Flavors c.requests <;> simp [hcm]

/-- C1 counterexample: with the one-flavor catalog (small = cpu 250m) and a
pod whose first container requests cpu 250m (a match) while its second
container requests cpu 300m (no match), at least one container matches some
flavor, yet `Admit` rejects the pod. -/
theorem admit_rejects_despite_earlier_match :
    containerMatches catalogSmall.Flavors [(cpuName, qCpu250)] = true ∧
      (Admit catalogSmall (attrsFor podMatchThenNoMatch)).1 = some admissionError := by
  decide

/-- C1 witness: the amended theorem applied to a one-container pod that
matches the one-flavor catalog. -/
theorem admit_nil_iff_lastExamined_matches_inst :
    (Admit catalogSmall (attrsFor podSingleMatch)).1 = none :=
  (admit_nil_iff_lastExamined_matches catalogSmall (attrsFor podSingleMatch)
      rfl rfl rfl (by decide)).mpr
    ⟨⟨[(cpuName, qCpu250)]⟩, by decide, by decide⟩

/-- C2: the per-container step on an empty request list yields matched = false
and no backfill, as claimed; but `Admit` does admit a pod that contains an
empty-bundle container: the loop `break`s on the empty second container and
keeps `found = true` from the matching first container, contradicting the
source's own comment "if reqs is not specified, we will reject it". -/
theorem admit_accepts_pod_with_empty_bundle :
    admitContainer catalogSmall.Flavors [] = (false, []) ∧
      Container.mk [] ∈ podMatchThenEmpty.containers ∧
      (Admit catalogSmall (attrsFor podMatchThenEmpty)).1 = none := by
  decide

/-- C3 counterexample: with catalog (small = cpu 250m, memory 1Gi) and a pod
whose first container requests memory 1Gi (matched and backfilled with cpu)
and whose second container requests cpu 300m (no match), `Admit` rejects the
pod but has already mutated the first container's request list. -/
theorem admit_mutates_on_rejection :
    (Admit catalogSM (attrsFor podBackfillThenNoMatch)).1 = some admissionError ∧
      (Admit catalogSM (attrsFor podBackfillThenNoMatch)).2 ≠ podBackfillThenNoMatch ∧
      (Admit catalogSM (attrsFor podBackfillThenNoMatch)).2.containers.head? =
        some ⟨[(memName, qMem1Gi), (cpuName, qCpu250)]⟩ := by
  decide

/-- C3 (amended): on the rejection path, every container whose original
request list matched no catalog flavor is left exactly unchanged; each
container of the final object either carries its original request list or its
original request list matched some flavor (and may have been backfilled before
the rejection), so rejection is atomic per failing container but does not roll
back earlier successful backfills. -/
theorem rejection_frame_per_container (f : flavors) (a : Attributes) (e : String)
    (h1 : a.kind = podKind) (h2 : a.subresource = "") (h3 : a.resource = podsResource)
    (he : (Admit f a).1 = some e) :
    List.Forall₂
      (fun o c => o.requests = c.requests ∨ containerMatches f.Flavors c.requests = true)
      (Admit f a).2.containers a.obj.containers := by
  rw [Admit_pass f a h1 h2 h3]
  exact admitLoop_forall2 f.Flavors false a.obj.containers

/-- C3 witness: the amended theorem applied to the rejected-but-mutated pod of
the counterexample. -/
theorem rejection_frame_per_container_inst :
    List.Forall₂
      (fun o c => o.requests = c.requests ∨ containerMatches catalogSM.Flavors c.requests = true)
      (Admit catalogSM (attrsFor podBackfillThenNoMatch)).2.containers
      (attrsFor podBackfillThenNoMatch).obj.containers :=
  rejection_frame_per_container catalogSM (attrsFor podBackfillThenNoMatch)
    admissionError rfl rfl rfl (by decide)

/-- C4: `Admit` admits a pod whose first container requests cpu 300m, a bundle
that is value-equal to no flavor of the catalog (small = cpu 250m): the
second, matching container overwrites `found`, so the admitted object is not
catalog-conformant, contradicting the source's own comment "Ensures all
containers are of defined flavors, and reject if they're not". -/
theorem admit_accepts_nonconforming_container :
    (Admit catalogSmall (attrsFor podNoMatchThenMatch)).1 = none ∧
      (Admit catalogSmall (attrsFor podNoMatchThenMatch)).2.containers.head? =
        some ⟨[(cpuName, qCpu300)]⟩ ∧
      ∀ p ∈ catalogSmall.Flavors, bundleValEqB [(cpuName, qCpu300)] p.2 = false := by
  decide

/-- C5 counterexample: S = (cpu 1) is a non-empty subset, with values copied
verbatim, of flavor b = (cpu 1, memory 2Mi) of catalogAB; admitContainer
returns matched = true, but the final bundle equals the earlier flavor
a = (cpu 1, memory 1Mi), not b: the scan stops at the first match. -/
theorem subset_backfills_first_match_not_F :
    (∀ p ∈ ([(cpuName, qCpu1)] : ResourceList), lookupR bundleB p.1 = some p.2) ∧
      ("b", bundleB) ∈ catalogAB.Flavors ∧
      (admitContainer catalogAB.Flavors [(cpuName, qCpu1)]).1 = true ∧
      bundleValEqB (admitContainer catalogAB.Flavors [(cpuName, qCpu1)]).2 bundleB = false := by
  decide

/-- C5 (amended): for every flavor F in the catalog and every non-empty subset
S of F's dimensions with values copied verbatim from F, admitContainer returns
matched = true and the final bundle equals, dimension for dimension, some
flavor of the catalog (the first one that matches S, which need not be F). -/
theorem subset_matches_some_flavor (catalog : flavors) (name : flavorType)
    (F S : ResourceList) (hF : (name, F) ∈ catalog.Flavors) (hS : S ≠ [])
    (hsub : ∀ p ∈ S, lookupR F p.1 = some p.2) :
    (admitContainer catalog.Flavors S).1 = true ∧
      ∃ q ∈ catalog.Flavors, bundleValEqB (admitContainer catalog.Flavors S).2 q.2 = true := by
  have hne : S.isEmpty = false := by
    cases S with
    | nil => exact absurd rfl hS
    | cons p rest => rfl
  have hmF : (matchFlavor F S).1 = true := by
    rw [matchFlavor_fst, List.all_eq_true]
    intro p hp
    unfold reqCheck
    rw [hsub p hp]
    simp [cmp_eq_ordering_eq_iff]
  have hcm : containerMatches catalog.Flavors S = true := by
    rw [containerMatches, List.any_eq_true]
    exact ⟨(name, F), hF, by simpa using hmF⟩
  have hac : admitContainer catalog.Flavors S = scanFlavors catalog.Flavors false S := by
    simp [admitContainer, hne]
  rw [hac]
  exact scanFlavors_of_match hcm false

/-- C5 witness: the amended theorem at catalogAB with F = flavor a and
S = (cpu 1). -/
theorem subset_matches_some_flavor_inst :
    (admitContainer catalogAB.Flavors [(cpuName, qCpu1)]).1 = true ∧
      ∃ q ∈ catalogAB.Flavors,
        bundleValEqB (admitContainer catalogAB.Flavors [(cpuName, qCpu1)]).2 q.2 = true :=
  subset_matches_some_flavor catalogAB ("a") bundleA [(cpuName, qCpu1)]
    (by decide) (by decide) (by decide)

/-- C6: a request containing a dimension/value pair that no catalog flavor
defines with an equal magnitude fails against every candidate flavor, and the
whole scan rejects, leaving the request unchanged. -/
theorem poisoned_request_rejected (catalog : flavors) (req : ResourceList)
    (k : ResourceName) (v : Quantity) (hmem : (k, v) ∈ req)
    (hpoison : ∀ p ∈ catalog.Flavors, optMilliEq (lookupR p.2 k) (some v) = false) :
    (∀ p ∈ catalog.Flavors, (matchFlavor p.2 req).1 = false) ∧
      scanFlavors catalog.Flavors false req = (false, req) := by
  have hall : ∀ p ∈ catalog.Flavors, (matchFlavor p.2 req).1 = false := by
    intro p hp
    rw [matchFlavor_fst]
    cases hb : req.all (reqCheck p.2) with
    | false => rfl
    | true =>
      exfalso
      have hc := List.all_eq_true.mp hb (k, v) hmem
      unfold reqCheck at hc
      cases hf : lookupR p.2 k with
      | none => rw [hf] at hc; cases hc
      | some fv =>
        rw [hf] at hc
        simp only [decide_eq_true_eq] at hc
        have hmil : fv.milli = v.milli := (cmp_eq_ordering_eq_iff fv v).mp hc
        have hpo := hpoison p hp
        rw [hf] at hpo
        simp [optMilliEq, hmil] at hpo
  exact ⟨hall, scanFlavors_false_of_all_false hall⟩

/-- C6 witness: cpu 300m is defined with an equal value by no flavor of the
one-flavor catalog (small = cpu 250m), so the request is rejected unchanged. -/
theorem poisoned_request_rejected_inst :
    (∀ p ∈ catalogSmall.Flavors, (matchFlavor p.2 [(cpuName, qCpu300)]).1 = false) ∧
      scanFlavors catalogSmall.Flavors false [(cpuName, qCpu300)] =
        (false, [(cpuName, qCpu300)]) :=
  poisoned_request_rejected catalogSmall [(cpuName, qCpu300)] cpuName qCpu300
    (List.Mem.head _) (by decide)

/-- C7: quantity comparison in the matcher is magnitude (equivalence-class)
equality, not raw-string equality: two quantities with equal parsed magnitudes
and arbitrary (possibly different) formats compare `eq`, and a request
declaring one form matches a flavor declaring the other. -/
theorem quantity_value_equality_matches (fl : ResourceList) (k : ResourceName)
    (q1 q2 : Quantity) (h : q1.milli = q2.milli) (hfl : lookupR fl k = some q1) :
    Quantity.cmp q1 q2 = Ordering.eq ∧ (matchFlavor fl [(k, q2)]).1 = true := by
  have hc : Quantity.cmp q1 q2 = Ordering.eq := (cmp_eq_ordering_eq_iff q1 q2).mpr h
  refine ⟨hc, ?_⟩
  rw [matchFlavor_fst]
  simp [reqCheck, hfl, hc]

/-- C7 witness: "1" and "1000m" parse to the same magnitude in different
formats; they compare `eq` and the request (cpu "1000m") matches the flavor
(cpu "1"). -/
theorem quantity_value_equality_matches_inst :
    parseQuantity ("1") = some qCpu1 ∧ parseQuantity ("1000m") = some qCpu1000m ∧
      Quantity.cmp qCpu1 qCpu1000m = Ordering.eq ∧
      (matchFlavor [(cpuName, qCpu1)] [(cpuName, qCpu1000m)]).1 = true := by
  have h := quantity_value_equality_matches [(cpuName, qCpu1)] cpuName qCpu1 qCpu1000m
    rfl (by decide)
  exact ⟨by decide, by decide, h.1, h.2⟩

/-- C8 counterexample: the two catalogs hold the same flavors (they are
permutations of each other, i.e. equal as Go maps), yet admitContainer on the
same request selects different flavors and produces different, value-unequal
final bundles: the outcome depends on the enumeration order, which Go does not
fix across map iterations. -/
theorem catalog_order_changes_result :
    catalogAB.Flavors.Perm catalogBA.Flavors ∧
      admitContainer catalogAB.Flavors [(cpuName, qCpu1)] ≠
        admitContainer catalogBA.Flavors [(cpuName, qCpu1)] ∧
      bundleValEqB (admitContainer catalogAB.Flavors [(cpuName, qCpu1)]).2
        (admitContainer catalogBA.Flavors [(cpuName, qCpu1)]).2 = false := by
  decide

/-- C8 (amended): for a fixed enumeration order the scan is deterministic and
first-match-wins — if no flavor before `fl` matches the request and `fl`
matches, the scan returns with `fl`'s backfilled bundle and never looks past
`fl`; but the enumeration order of the Go map is not fixed, so equal catalogs
may yield different selected flavors (see the counterexample). -/
theorem scan_first_match_wins (pre post : List (flavorType × ResourceList))
    (fl : flavorType × ResourceList) (req : ResourceList) (found : Bool)
    (hpre : ∀ p ∈ pre, (matchFlavor p.2 req).1 = false)
    (hfl : (matchFlavor fl.2 req).1 = true) :
    scanFlavors (pre ++ fl :: post) found req = (true, (matchFlavor fl.2 req).2) :=
  scanFlavors_first_match pre fl post found req hpre hfl

/-- C8 witness: one non-matching flavor before the match, one flavor after it
that is never reached. -/
theorem scan_first_match_wins_inst :
    scanFlavors ([("x", [(cpuName, qCpu300)])] ++ ("a", bundleA) :: [("b", bundleB)])
        false [(cpuName, qCpu1)] =
      (true, (matchFlavor bundleA [(cpuName, qCpu1)]).2) :=
  scan_first_match_wins [("x", [(cpuName, qCpu300)])] [("b", bundleB)]
    ("a", bundleA) [(cpuName, qCpu1)] false (by decide) (by decide)

/-- C9: a request whose kind is not Pod, or which targets a subresource, or
whose resource under verification is not the pods collection, is a no-op
admit: nil error and the object completely unmodified. -/
theorem admit_filter_noop (f : flavors) (a : Attributes)
    (h : a.kind ≠ podKind ∨ a.subresource ≠ "" ∨ a.resource ≠ podsResource) :
    Admit f a = (none, a.obj) := by
  unfold Admit
  by_cases h1 : a.kind ≠ podKind
  · rw [if_pos h1]
  · rw [if_neg h1]
    by_cases h2 : a.subresource ≠ ""
    · rw [if_pos h2]
    · rw [if_neg h2]
      by_cases h3 : a.resource ≠ podsResource
      · rw [if_pos h3]
      · rcases h with h | h | h
        · exact absurd h h1
        · exact absurd h h2
        · exact absurd h h3

/-- C9 witness: a request targeting the status subresource passes through with
its pod untouched. -/
theorem admit_filter_noop_inst :
    Admit catalogSmall ⟨podKind, "status", podsResource, podSingleMatch⟩ =
      (none, podSingleMatch) :=
  admit_filter_noop catalogSmall ⟨podKind, "status", podsResource, podSingleMatch⟩
    (Or.inr (Or.inl (by decide)))

/-- C10: a failed candidate never mutates the request: when `matchFlavor`
returns false the request list is returned exactly unchanged, and a scan over
any list of flavors none of which matches leaves the request list untouched. -/
theorem failed_match_no_mutation (fl req : ResourceList)
    (pre : List (flavorType × ResourceList)) (found : Bool) :
    ((matchFlavor fl req).1 = false → (matchFlavor fl req).2 = req) ∧
      ((∀ p ∈ pre, (matchFlavor p.2 req).1 = false) →
        (scanFlavors pre found req).2 = req) :=
  ⟨fun h => matchFlavor_false_id h, fun h => scanFlavors_snd_of_all_false h found⟩

/-- C10 witness: the non-matching request cpu 300m is unchanged by a failing
`matchFlavor` call and by a scan of the whole (non-matching) catalog. -/
theorem failed_match_no_mutation_inst :
    (matchFlavor [(cpuName, qCpu250)] [(cpuName, qCpu300)]).1 = false ∧
      (matchFlavor [(cpuName, qCpu250)] [(cpuName, qCpu300)]).2 = [(cpuName, qCpu300)] ∧
      (scanFlavors catalogSmall.Flavors true [(cpuName, qCpu300)]).2 = [(cpuName, qCpu300)] := by
  have h := failed_match_no_mutation [(cpuName, qCpu250)] [(cpuName, qCpu300)]
    catalogSmall.Flavors true
  exact ⟨by decide, h.1 (by decide), h.2 (by decide)⟩

end Flavor
